import Mathlib

/-
  Verification of the SmartPrint-3D splitting core (BACKEND DEV/smart_splitter.py
  and BACKEND DEV/main.py) against its natural-language specification.

  The numeric logic of the program (thresholds, clamps, counts, profiles, the
  generated mesh of revolution) is embedded directly over the rationals, or over
  the reals where the code builds trigonometric vertex rings.  External geometry
  library calls (slicing, boolean CSG, polygon predicates) are treated as
  abstract primitives, exactly at the boundary where the source calls trimesh
  or shapely.
-/

set_option maxRecDepth 100000
set_option maxHeartbeats 1000000

namespace SmartSplitter

/-- 3D vectors with rational coordinates, indexed like numpy arrays. -/
def V3 : Type := Fin 3 → ℚ

instance : DecidableEq V3 := by unfold V3; infer_instance

/-- Coordinatewise construction of a `V3` (a numpy length-3 array). -/
def mkV3 (a b c : ℚ) : V3 := fun i => if i = 0 then a else if i = 1 then b else c

/-- np.dot for length-3 arrays. -/
def dot3 (u v : V3) : ℚ := u 0 * v 0 + u 1 * v 1 + u 2 * v 2

/-- Elementwise subtraction of 3-vectors. -/
def vsub (u v : V3) : V3 := fun i => u i - v i

/-- Elementwise negation (the code writes `-normal`). -/
def vneg (u : V3) : V3 := fun i => -(u i)

/-- Scalar multiple of a 3-vector. -/
def vsmul (k : ℚ) (u : V3) : V3 := fun i => k * u i

/-! ### Cap-surface analysis: on-plane test (smart_splitter.py lines 237-241) -/

/-- Signed (unnormalized) distance of vertex `v` from the plane through `o`
with normal `n`: the code computes `distances = np.dot(vectors, plane_normal)`
with `vectors = mesh.vertices - plane_origin`. -/
def signed_distance (o n v : V3) : ℚ := dot3 (vsub v o) n

/-- The on-plane mask of `_analyze_cap_surface`:
`on_plane_mask = np.abs(distances) < 1e-4`. -/
def on_plane (o n v : V3) : Bool := |signed_distance o n v| < 1 / 10000

/-- Cap-face mask (`face_mask = np.all(on_plane_mask[mesh.faces], axis=1)`):
a face is a cap face when all three of its vertices are on the plane. -/
def cap_face_mask (verts : List V3) (faces : List (ℕ × ℕ × ℕ)) (o n : V3) :
    List Bool :=
  faces.map (fun f =>
    on_plane o n (verts.getD f.1 (mkV3 0 0 0)) &&
    on_plane o n (verts.getD f.2.1 (mkV3 0 0 0)) &&
    on_plane o n (verts.getD f.2.2 (mkV3 0 0 0)))

/-- Side test of the plane slicer (spec §4.B): a point `p` belongs to the
positive half returned by `slice_mesh_plane` iff `(p - origin) · normal ≥ 0`. -/
def slice_side (o n p : V3) : Bool := 0 ≤ signed_distance o n p

/-! ### Pin-count logic (smart_splitter.py lines 282-301) -/

/-- Width clamp before the aspect-ratio division:
`if width < 0.1: width = 0.1`. -/
def clamp_width (w : ℚ) : ℚ := if w < 1 / 10 then 1 / 10 else w

/-- `aspect_ratio = length / width` after the clamp (line 291). -/
def aspect_ratio (l w : ℚ) : ℚ := l / clamp_width w

/-- Pin count from the aspect ratio (lines 296-301). -/
def num_pins (aspect : ℚ) : ℕ :=
  if aspect > 10 then 3 else if aspect > 3 then 2 else 1

/-! ### Smart sizing of pins and holes (smart_splitter.py lines 149-192) -/

/-- `pin_radius = max(2.0, min(max_radius * 0.6, 20.0))` (lines 150-151). -/
def pin_radius (max_radius : ℚ) : ℚ := max 2 (min (max_radius * (6 / 10)) 20)

/-- `pin_diameter = 2 * pin_radius` (line 152). -/
def pin_diameter (max_radius : ℚ) : ℚ := 2 * pin_radius max_radius

/-- `pin_height = max(10.0, min(pin_radius * 3.0, 30.0))` (lines 154-155). -/
def pin_height (max_radius : ℚ) : ℚ := max 10 (min (pin_radius max_radius * 3) 30)

/-- `tolerance = 0.4` millimetres of diametral clearance (line 157). -/
def tolerance : ℚ := 4 / 10

/-- `pin_chamfer = 0.1 * pin_diameter` (line 172). -/
def pin_chamfer (max_radius : ℚ) : ℚ := (1 / 10) * pin_diameter max_radius

/-- `hole_radius = pin_radius + tolerance / 2` (line 184). -/
def hole_radius (max_radius : ℚ) : ℚ := pin_radius max_radius + tolerance / 2

/-- `hole_diameter = 2 * hole_radius` (line 185). -/
def hole_diameter (max_radius : ℚ) : ℚ := 2 * hole_radius max_radius

/-- `hole_height = pin_height` (line 186). -/
def hole_height (max_radius : ℚ) : ℚ := pin_height max_radius

/-- `hole_chamfer = 0.1 * hole_diameter` (line 188). -/
def hole_chamfer (max_radius : ℚ) : ℚ := (1 / 10) * hole_diameter max_radius

/-! ### Chamfered pin profile (smart_splitter.py lines 375-399) -/

/-- The (z, radius) profile built by `_create_chamfered_pin`: the chamfer is
rescaled to `height / 3` when the flagged chamfers would not fit
(`needed_height >= height`), then the bottom is flared and the top tapered
according to the flags.  Generic over the scalar field so the same embedding
serves the rational profile facts and the real-valued mesh generation. -/
def pin_profile {K : Type} [LinearOrderedField K]
    (radius height chamfer : K) (taper_top flare_bottom : Bool) :
    List (K × K) :=
  let needed : K :=
    (if taper_top then chamfer else 0) + (if flare_bottom then chamfer else 0)
  let c : K := if needed ≥ height then height / 3 else chamfer
  (if flare_bottom then [(0, radius + c), (c, radius)] else [(0, radius)]) ++
  (if taper_top then [(height - c, radius), (height, radius - c)]
   else [(height, radius)])

/-! ### Pin-placement planning (smart_splitter.py lines 278-355)

The 2D shapely primitives (polygon containment, centroid, pole of
inaccessibility, distance to boundary) are abstract capabilities; the control
flow around them — centerline construction, interpolated proposals, the
containment filter, the fallback, the safe radius from the first center — is
embedded concretely. -/

/-- A 2D point (plane-local coordinates). -/
def P2 : Type := ℚ × ℚ

instance : DecidableEq P2 := by unfold P2; infer_instance

/-- Squared Euclidean distance.  The code compares true Euclidean distances
(`dist01 >= dist12`); comparing squares is equivalent since both are
non-negative and squaring is monotone. -/
def distSq (p q : P2) : ℚ := (p.1 - q.1) ^ 2 + (p.2 - q.2) ^ 2

/-- Midpoint of two 2D points, as in `Point((p0.x+p3.x)/2, (p0.y+p3.y)/2)`. -/
def midpoint2 (p q : P2) : P2 := ((p.1 + q.1) / 2, (p.2 + q.2) / 2)

/-- `line.interpolate(t, normalized=True)` on the two-point segment `a`–`b`. -/
def lerp2 (a b : P2) (t : ℚ) : P2 :=
  (a.1 + t * (b.1 - a.1), a.2 + t * (b.2 - a.2))

/-- The first four exterior coordinates of the minimum rotated rectangle
(`x, y = min_rect.exterior.coords.xy`; the fifth closes the ring). -/
structure RectCoords where
  p0 : P2
  p1 : P2
  p2 : P2
  p3 : P2

/-- The long-axis centerline of the rectangle (lines 313-331): if edge
`p0 p1` is at least as long as `p1 p2`, the centerline joins the midpoints of
the short edges `p0 p3` and `p1 p2`, otherwise those of `p0 p1` and `p3 p2`. -/
def centerline (R : RectCoords) : P2 × P2 :=
  if distSq R.p0 R.p1 ≥ distSq R.p1 R.p2 then
    (midpoint2 R.p0 R.p3, midpoint2 R.p1 R.p2)
  else
    (midpoint2 R.p0 R.p1, midpoint2 R.p3 R.p2)

/-- The multi-pin proposals (lines 336-339): pin `i` at fraction
`(2i+1)/(2n)` along the centerline. -/
def proposed_points (R : RectCoords) (n : ℕ) : List P2 :=
  (List.range n).map
    (fun i => lerp2 (centerline R).1 (centerline R).2 ((2 * i + 1 : ℚ) / (2 * n)))

/-- The shapely capabilities of the valid cap polygon that the planner
consumes: strict containment (`main_poly.contains`), the centroid, the pole of
inaccessibility (`polylabel(main_poly, tolerance=0.1)`), and distance from a
point to the polygon boundary. -/
structure Poly2D where
  contains : P2 → Bool
  poly_centroid : P2
  pole : P2
  boundary_dist : P2 → ℚ

/-- Center selection (lines 303-351): a single pin uses the centroid, falling
back to the pole of inaccessibility when the centroid is not inside; multiple
pins keep exactly the proposed centerline points that are inside the polygon;
if the list ends up empty, a single pole-of-inaccessibility fallback is
used. -/
def select_centers (P : Poly2D) (R : RectCoords) (n : ℕ) : List P2 :=
  let centers :=
    if n = 1 then
      [if P.contains P.poly_centroid then P.poly_centroid else P.pole]
    else
      (proposed_points R n).filter (fun pt => P.contains pt)
  if centers = [] then [P.pole] else centers

/-- The safe radius (lines 353-355): distance from the *first* chosen center
to the polygon boundary. -/
def analyze_max_radius (P : Poly2D) (centers : List P2) : ℚ :=
  P.boundary_dist (centers.headD (0, 0))

/-- Concrete polygon capabilities used by witnesses: the half-plane
`0 ≤ x` with centroid `(1,1)` and pole `(2,0)`. -/
def examplePoly : Poly2D :=
  ⟨fun p => decide (0 ≤ p.1), (1, 1), (2, 0), fun _ => 0⟩

/-- Concrete rectangle used by witnesses: the unit square. -/
def exampleRect : RectCoords := ⟨(0, 0), (1, 0), (1, 1), (0, 1)⟩

/-! ### Key-solid construction (smart_splitter.py lines 149-196)

The loop over centers creates every pin from the one `pin_radius`,
`pin_height`, `pin_chamfer` computed before the loop, and every hole cutter
from the one `hole_radius`, `hole_height`, `hole_chamfer`; all of them are
oriented by the single `rotation = align_vectors(z_axis, -normal)` computed
once.  A solid is recorded by its parameters; the rotation is recorded by the
target direction passed to `align_vectors`, of which it is a function. -/

/-- One pin or hole solid as parameterized by `perform_split_and_key`. -/
structure KeySolid where
  radius : ℚ
  height : ℚ
  chamfer : ℚ
  taper_top : Bool
  flare_bottom : Bool
  rot_target : V3
  center : V3

/-- The pins created by the loop (lines 169-179). -/
def make_pins (normal : V3) (centers : List V3) (max_radius : ℚ) :
    List KeySolid :=
  centers.map (fun c =>
    { radius := pin_radius max_radius
      height := pin_height max_radius
      chamfer := pin_chamfer max_radius
      taper_top := true
      flare_bottom := true
      rot_target := vneg normal
      center := c })

/-- The hole cutters created by the loop (lines 181-195). -/
def make_hole_cutters (normal : V3) (centers : List V3) (max_radius : ℚ) :
    List KeySolid :=
  centers.map (fun c =>
    { radius := hole_radius max_radius
      height := hole_height max_radius
      chamfer := hole_chamfer max_radius
      taper_top := false
      flare_bottom := true
      rot_target := vneg normal
      center := c })

/-! ### Mesh of revolution built by `_create_chamfered_pin`
(smart_splitter.py lines 400-468)

The code revolves the profile around Z with 32 angular sections
(`theta = np.linspace(0, 2*pi, 32, endpoint=False)`), stacking one ring of 32
vertices per profile point, then appends a bottom and a top center vertex and
fan-triangulates the caps.  The vertex arrays are real-valued
(trigonometric); the face arrays are natural-number index triples. -/

/-- The angle of angular section `j` out of 32. -/
noncomputable def theta (j : ℕ) : ℝ := 2 * Real.pi * j / 32

/-- Vertex `j` of the ring of radius `r` at height `z`:
`(r*cos(theta), r*sin(theta), z)` (line 414). -/
noncomputable def ring_vertex (r z : ℝ) (j : ℕ) : ℝ × ℝ × ℝ :=
  (r * Real.cos (theta j), r * Real.sin (theta j), z)

/-- All rings stacked in profile order (lines 411-417): for each profile
point `(z, r)`, the 32 ring vertices. -/
noncomputable def ring_blocks (profile : List (ℝ × ℝ)) : List (ℝ × ℝ × ℝ) :=
  (profile.map (fun p => (List.range 32).map (fun j => ring_vertex p.2 p.1 j))).flatten

/-- The full vertex array: the rings, then the bottom center
`[0, 0, profile[0][0]]` (line 444), then the top center
`[0, 0, profile[-1][0]]` (line 457); Python's `profile[-1]` is element
`length - 1`. -/
noncomputable def pin_vertices (profile : List (ℝ × ℝ)) : List (ℝ × ℝ × ℝ) :=
  ring_blocks profile ++
    [(0, 0, (profile.getD 0 (0, 0)).1),
     (0, 0, (profile.getD (profile.length - 1) (0, 0)).1)]

/-- The side wall faces (lines 421-440): two triangles per quad between
consecutive rings. -/
def side_faces (num_rings : ℕ) : List (ℕ × ℕ × ℕ) :=
  (List.range (num_rings - 1)).flatMap (fun i =>
    (List.range 32).flatMap (fun j =>
      [(i * 32 + j, i * 32 + (j + 1) % 32, (i + 1) * 32 + j),
       ((i + 1) * 32 + j, i * 32 + (j + 1) % 32, (i + 1) * 32 + (j + 1) % 32)]))

/-- The bottom cap fan (lines 442-453): center vertex at index
`num_rings * 32`, triangles `(center, j_next, j)` over ring 0. -/
def bottom_faces (num_rings : ℕ) : List (ℕ × ℕ × ℕ) :=
  (List.range 32).map (fun j => (num_rings * 32, (j + 1) % 32, j))

/-- The top cap fan (lines 455-465): center vertex at index
`num_rings * 32 + 1`, triangles `(center, j, j_next)` over the last ring. -/
def top_faces (num_rings : ℕ) : List (ℕ × ℕ × ℕ) :=
  (List.range 32).map (fun j =>
    (num_rings * 32 + 1, (num_rings - 1) * 32 + j,
      (num_rings - 1) * 32 + (j + 1) % 32))

/-- The full face array, in the order the code emits it. -/
def pin_faces (num_rings : ℕ) : List (ℕ × ℕ × ℕ) :=
  side_faces num_rings ++ bottom_faces num_rings ++ top_faces num_rings

/-- `_create_chamfered_pin` as vertex and face arrays: profile, rings,
caps. -/
noncomputable def create_chamfered_pin (radius height chamfer : ℝ)
    (taper_top flare_bottom : Bool) :
    List (ℝ × ℝ × ℝ) × List (ℕ × ℕ × ℕ) :=
  let profile := pin_profile radius height chamfer taper_top flare_bottom
  (pin_vertices profile, pin_faces profile.length)

/-- The 3×3 determinant `u ⬝ (v × w)` of a vertex triple: six times the
signed volume of the tetrahedron `(0, u, v, w)`. -/
noncomputable def det3 (u v w : ℝ × ℝ × ℝ) : ℝ :=
  u.1 * (v.2.1 * w.2.2 - v.2.2 * w.2.1)
  - u.2.1 * (v.1 * w.2.2 - v.2.2 * w.1)
  + u.2.2 * (v.1 * w.2.1 - v.2.1 * w.1)

/-- Six times the signed volume enclosed by an indexed triangle list: the sum
of `det3` over the faces.  For a closed, consistently oriented surface this is
positive exactly when the triangle winding faces outward. -/
noncomputable def signed_vol6 (verts : List (ℝ × ℝ × ℝ))
    (faces : List (ℕ × ℕ × ℕ)) : ℝ :=
  (faces.map (fun f =>
    det3 (verts.getD f.1 (0, 0, 0)) (verts.getD f.2.1 (0, 0, 0))
      (verts.getD f.2.2 (0, 0, 0)))).sum

/-- `sin(2π/32)`, the angular step factor every revolved determinant reduces
to. -/
noncomputable def sinD : ℝ := Real.sin (2 * Real.pi / 32)

/-! ### Combinatorial watertightness of the revolved mesh

A directed edge `(a, b)` is encoded by the injective pairing `Nat.pair a b`.
A face list is combinatorially watertight with consistent orientation when
every directed edge occurs exactly once and its reversal also occurs exactly
once — equivalently, the directed-edge list has no duplicates and is a
permutation of its edgewise reversal.  The check is carried out by sorting
with a fueled bottom-up merge sort (kernel-reducible, unlike well-founded
recursion) and scanning for strict ascent. -/

/-- Directed edges of a face list, encoded. -/
def dir_edge_codes (faces : List (ℕ × ℕ × ℕ)) : List ℕ :=
  faces.flatMap (fun f =>
    [Nat.pair f.1 f.2.1, Nat.pair f.2.1 f.2.2, Nat.pair f.2.2 f.1])

/-- The edgewise reversals of the directed edges, encoded, in the same
order. -/
def rev_edge_codes (faces : List (ℕ × ℕ × ℕ)) : List ℕ :=
  faces.flatMap (fun f =>
    [Nat.pair f.2.1 f.1, Nat.pair f.2.2 f.2.1, Nat.pair f.1 f.2.2])

/-- Fueled merge of two lists; with exhausted fuel the remainders are
appended, so the result is a permutation of `xs ++ ys` for every fuel. -/
def merge2 : ℕ → List ℕ → List ℕ → List ℕ
  | 0, xs, ys => xs ++ ys
  | _ + 1, [], ys => ys
  | _ + 1, x :: xs, [] => x :: xs
  | fuel + 1, x :: xs, y :: ys =>
    if x ≤ y then x :: merge2 fuel xs (y :: ys) else y :: merge2 fuel (x :: xs) ys

/-- One bottom-up pass: merge adjacent runs pairwise. -/
def merge_pairs : List (List ℕ) → List (List ℕ)
  | a :: b :: rest => merge2 (a.length + b.length) a b :: merge_pairs rest
  | ls => ls

/-- Iterate merge passes (fueled). -/
def msort_aux : ℕ → List (List ℕ) → List ℕ
  | 0, ls => ls.flatten
  | _ + 1, [] => []
  | _ + 1, [l] => l
  | fuel + 1, a :: b :: rest => msort_aux fuel (merge_pairs (a :: b :: rest))

/-- Bottom-up merge sort, always a permutation of its input. -/
def msort (l : List ℕ) : List ℕ := msort_aux l.length (l.map (fun x => [x]))

/-- Scan for strictly ascending order (hence no duplicates). -/
def sorted_nodup : List ℕ → Bool
  | [] => true
  | [_] => true
  | a :: b :: rest => decide (a < b) && sorted_nodup (b :: rest)

/-- Combinatorial watertightness with consistent orientation: no directed
edge repeats, and the directed-edge multiset is closed under reversal — every
undirected edge bounds exactly two faces, traversed in opposite directions. -/
def oriented_watertight (faces : List (ℕ × ℕ × ℕ)) : Prop :=
  (dir_edge_codes faces).Nodup ∧
  (dir_edge_codes faces).Perm (rev_edge_codes faces)

/-! ### Exception handling around the cap analysis (lines 127-143, 235-373) -/

/-- The body of `_analyze_cap_surface` (lines 236-367) runs geometry-library
calls that may raise; it may also return `None` early (no cap faces, empty
projection).  The surrounding `try/except Exception` (lines 235, 369-373)
converts any raised exception into `None`. -/
def analyze_cap_surface {CapD Err : Type} (body : Except Err (Option CapD)) :
    Option CapD :=
  match body with
  | .ok r => r
  | .error _ => none

/-- The slicing and analysis calls `perform_split_and_key` makes before any
keying work, abstracted over the mesh and cap-data representations. -/
structure SplitPrims (Mesh CapD Err : Type) where
  slice_cap : Mesh → V3 → V3 → Mesh
  analyze_body : Mesh → V3 → V3 → Except Err (Option CapD)

/-- `perform_split_and_key` (lines 127-228): slice both halves, analyze the
cap on half A; if the analysis yields nothing, return the raw halves;
otherwise hand both halves to the keying stage (pins, cutters, booleans),
modeled by `add_keys`. -/
def perform_split_and_key {Mesh CapD Err : Type} (prims : SplitPrims Mesh CapD Err)
    (add_keys : CapD → Mesh → Mesh → Mesh × Mesh)
    (mesh : Mesh) (origin normal : V3) : Mesh × Mesh :=
  let mesh_a := prims.slice_cap mesh origin normal
  let mesh_b := prims.slice_cap mesh origin (vneg normal)
  match analyze_cap_surface (prims.analyze_body mesh_a origin normal) with
  | none => (mesh_a, mesh_b)
  | some cap_data => add_keys cap_data mesh_a mesh_b

/-! ### Plane suggestion (smart_splitter.py lines 27-50, main.py lines 74-79) -/

/-- The bounds and centroid of a loaded mesh, the only mesh data
`suggest_split` reads: `bounds[0]` (per-axis minima), `bounds[1]` (per-axis
maxima) and `mesh.centroid`. -/
structure MeshSummary where
  lo : V3
  hi : V3
  centroid : V3

/-- `mesh.extents = bounds[1] - bounds[0]`. -/
def extents (m : MeshSummary) : V3 := fun i => m.hi i - m.lo i

/-- `np.argmax` over a length-3 array: index of the first occurrence of the
maximum (a later entry replaces the running best only when strictly larger). -/
def argmax3 (e : V3) : Fin 3 :=
  if e 1 > e 0 then (if e 2 > e 1 then 2 else 1)
  else (if e 2 > e 0 then 2 else 0)

/-- `suggest_split` (lines 33-50): pick the axis (argmax of extents when no
hint), midpoint of the bounds on that axis, origin = centroid with that
coordinate overridden, normal = positive unit vector of that axis.  Returns
`(origin, normal)`. -/
def suggest_split (m : MeshSummary) (axis_idx : Option (Fin 3)) : V3 × V3 :=
  let i := axis_idx.getD (argmax3 (extents m))
  let mid := (m.lo i + m.hi i) / 2
  (Function.update m.centroid i mid, Function.update (mkV3 0 0 0) i 1)

end SmartSplitter

namespace SmartSplitter

/-! ## Helper lemmas: the fueled merge sort permutes its input -/

theorem merge2_perm : ∀ (fuel : ℕ) (xs ys : List ℕ),
    (merge2 fuel xs ys).Perm (xs ++ ys)
  | 0, _, _ => List.Perm.refl _
  | _ + 1, [], ys => by simp [merge2]
  | _ + 1, _ :: _, [] => by simp [merge2]
  | fuel + 1, x :: xs, y :: ys => by
    simp only [merge2]
    split_ifs with h
    · exact (merge2_perm fuel xs (y :: ys)).cons x
    · refine List.Perm.trans ((merge2_perm fuel (x :: xs) ys).cons y) ?_
      exact List.perm_middle.symm

theorem merge_pairs_perm : ∀ ls : List (List ℕ),
    (merge_pairs ls).flatten.Perm ls.flatten
  | [] => List.Perm.refl _
  | [_] => List.Perm.refl _
  | a :: b :: rest => by
    simp only [merge_pairs, List.flatten_cons]
    refine List.Perm.trans
      (List.Perm.append (merge2_perm _ a b) (merge_pairs_perm rest)) ?_
    rw [List.append_assoc]

theorem msort_aux_perm : ∀ (fuel : ℕ) (ls : List (List ℕ)),
    (msort_aux fuel ls).Perm ls.flatten
  | 0, _ => List.Perm.refl _
  | _ + 1, [] => List.Perm.refl _
  | _ + 1, [l] => by simp [msort_aux]
  | fuel + 1, a :: b :: rest => by
    simp only [msort_aux]
    exact (msort_aux_perm fuel (merge_pairs (a :: b :: rest))).trans
      (merge_pairs_perm (a :: b :: rest))

theorem flatten_map_singleton : ∀ l : List ℕ, (l.map (fun x => [x])).flatten = l
  | [] => rfl
  | x :: rest => by simp [flatten_map_singleton rest]

theorem msort_perm (l : List ℕ) : (msort l).Perm l := by
  have h := msort_aux_perm l.length (l.map (fun x => [x]))
  rwa [flatten_map_singleton] at h

theorem sorted_nodup_head_lt : ∀ (a : ℕ) (l : List ℕ),
    sorted_nodup (a :: l) = true → ∀ x ∈ l, a < x
  | _, [], _, x, hx => absurd hx (List.not_mem_nil x)
  | a, b :: rest, h, x, hx => by
    have h' : a < b ∧ sorted_nodup (b :: rest) = true := by
      simpa [sorted_nodup] using h
    rcases List.mem_cons.mp hx with rfl | hx'
    · exact h'.1
    · exact h'.1.trans (sorted_nodup_head_lt b rest h'.2 x hx')

theorem sorted_nodup_imp_nodup : ∀ l : List ℕ, sorted_nodup l = true → l.Nodup
  | [], _ => List.nodup_nil
  | a :: rest, h => by
    have hrest : sorted_nodup rest = true := by
      cases rest with
      | nil => rfl
      | cons b r => exact (Bool.and_eq_true_iff.mp h).2
    refine List.nodup_cons.mpr ⟨fun hmem => ?_, sorted_nodup_imp_nodup rest hrest⟩
    exact lt_irrefl a (sorted_nodup_head_lt a rest h a hmem)

theorem oriented_watertight_of_checks (faces : List (ℕ × ℕ × ℕ))
    (h1 : sorted_nodup (msort (dir_edge_codes faces)) = true)
    (h2 : msort (dir_edge_codes faces) = msort (rev_edge_codes faces)) :
    oriented_watertight faces := by
  have hp := msort_perm (dir_edge_codes faces)
  have hnd : (msort (dir_edge_codes faces)).Nodup := sorted_nodup_imp_nodup _ h1
  constructor
  · exact (hp.nodup_iff).mp hnd
  · refine hp.symm.trans ?_
    rw [h2]
    exact msort_perm (rev_edge_codes faces)

/-! ## Helper lemmas: indexing into the stacked revolution vertices -/

theorem ring_block_getD (r z : ℝ) (j : ℕ) (hj : j < 32) (d : ℝ × ℝ × ℝ) :
    ((List.range 32).map (fun j => ring_vertex r z j)).getD j d =
      ring_vertex r z j := by
  rw [List.getD_eq_getElem?_getD, List.getElem?_map, List.getElem?_range hj]
  rfl

theorem ring_blocks_length (p : List (ℝ × ℝ)) :
    (ring_blocks p).length = 32 * p.length := by
  induction p with
  | nil => rfl
  | cons a rest ih =>
    simp only [ring_blocks, List.map_cons, List.flatten_cons, List.length_append,
      List.length_map, List.length_range, List.length_cons] at ih ⊢
    omega

theorem ring_blocks_getD : ∀ (p : List (ℝ × ℝ)) (i j : ℕ), i < p.length →
    j < 32 → ∀ d, (ring_blocks p).getD (i * 32 + j) d =
      ring_vertex (p.getD i (0, 0)).2 (p.getD i (0, 0)).1 j
  | [], i, _, hi, _, _ => absurd hi (by simp)
  | a :: rest, 0, j, _, hj, d => by
    have hsplit : ring_blocks (a :: rest) =
        ((List.range 32).map (fun j => ring_vertex a.2 a.1 j)) ++
          ring_blocks rest := by
      simp [ring_blocks]
    rw [hsplit, zero_mul, zero_add,
      List.getD_append _ _ _ j (by simpa using hj)]
    exact ring_block_getD a.2 a.1 j hj d
  | a :: rest, i + 1, j, hi, hj, d => by
    have hsplit : ring_blocks (a :: rest) =
        ((List.range 32).map (fun j => ring_vertex a.2 a.1 j)) ++
          ring_blocks rest := by
      simp [ring_blocks]
    have hlen : ((List.range 32).map (fun j => ring_vertex a.2 a.1 j)).length = 32 := by
      simp
    have hge : ((List.range 32).map (fun j => ring_vertex a.2 a.1 j)).length ≤
        (i + 1) * 32 + j := by
      rw [hlen]; omega
    rw [hsplit, List.getD_append_right _ _ _ _ hge, hlen]
    have hidx : (i + 1) * 32 + j - 32 = i * 32 + j := by omega
    rw [hidx]
    have hi' : i < rest.length := by simpa using hi
    have := ring_blocks_getD rest i j hi' hj d
    rw [this]
    rfl

theorem pin_vertices_length (p : List (ℝ × ℝ)) :
    (pin_vertices p).length = 32 * p.length + 2 := by
  simp [pin_vertices, ring_blocks_length]

theorem pin_vertices_getD_ring (p : List (ℝ × ℝ)) (i j : ℕ) (hi : i < p.length)
    (hj : j < 32) (d : ℝ × ℝ × ℝ) :
    (pin_vertices p).getD (i * 32 + j) d =
      ring_vertex (p.getD i (0, 0)).2 (p.getD i (0, 0)).1 j := by
  unfold pin_vertices
  rw [List.getD_append _ _ _ _ (by rw [ring_blocks_length]; omega)]
  exact ring_blocks_getD p i j hi hj d

theorem pin_vertices_getD_bottom (p : List (ℝ × ℝ)) (d : ℝ × ℝ × ℝ) :
    (pin_vertices p).getD (p.length * 32) d = (0, 0, (p.getD 0 (0, 0)).1) := by
  unfold pin_vertices
  rw [List.getD_append_right _ _ _ _ (by rw [ring_blocks_length]; omega),
    ring_blocks_length]
  have h0 : p.length * 32 - 32 * p.length = 0 := by omega
  rw [h0]
  rfl

theorem pin_vertices_getD_top (p : List (ℝ × ℝ)) (d : ℝ × ℝ × ℝ) :
    (pin_vertices p).getD (p.length * 32 + 1) d =
      (0, 0, (p.getD (p.length - 1) (0, 0)).1) := by
  unfold pin_vertices
  rw [List.getD_append_right _ _ _ _ (by rw [ring_blocks_length]; omega),
    ring_blocks_length]
  have h1 : p.length * 32 + 1 - 32 * p.length = 1 := by omega
  rw [h1]
  rfl

/-! ## Helper lemmas: determinants of one angular step of the revolution -/

theorem sin_theta_sub (j : ℕ) (hj : j < 32) :
    Real.sin (theta ((j + 1) % 32)) * Real.cos (theta j) -
      Real.cos (theta ((j + 1) % 32)) * Real.sin (theta j) = sinD := by
  rw [← Real.sin_sub]
  by_cases h31 : j = 31
  · subst h31
    have h0 : (31 + 1) % 32 = 0 := by norm_num
    rw [h0]
    have harg : theta 0 - theta 31 = 2 * Real.pi / 32 - 2 * Real.pi := by
      unfold theta; push_cast; ring
    rw [harg, Real.sin_sub_two_pi]
    rfl
  · have hlt : j + 1 < 32 := by omega
    rw [Nat.mod_eq_of_lt hlt]
    have harg : theta (j + 1) - theta j = 2 * Real.pi / 32 := by
      unfold theta; push_cast; ring
    rw [harg]
    rfl

theorem quad_det (a za b zb : ℝ) (j : ℕ) (hj : j < 32) :
    det3 (ring_vertex a za j) (ring_vertex a za ((j + 1) % 32))
        (ring_vertex b zb j) +
      det3 (ring_vertex b zb j) (ring_vertex a za ((j + 1) % 32))
        (ring_vertex b zb ((j + 1) % 32)) =
      sinD * ((a + b) * (a * zb - b * za)) := by
  have key := sin_theta_sub j hj
  unfold det3 ring_vertex
  linear_combination ((a + b) * (a * zb - b * za)) * key

theorem bottom_det (r z : ℝ) (j : ℕ) (hj : j < 32) :
    det3 (0, 0, z) (ring_vertex r z ((j + 1) % 32)) (ring_vertex r z j) =
      sinD * (-(z * r ^ 2)) := by
  have key := sin_theta_sub j hj
  unfold det3 ring_vertex
  linear_combination (-(z * r ^ 2)) * key

theorem top_det (r z : ℝ) (j : ℕ) (hj : j < 32) :
    det3 (0, 0, z) (ring_vertex r z j) (ring_vertex r z ((j + 1) % 32)) =
      sinD * (z * r ^ 2) := by
  have key := sin_theta_sub j hj
  unfold det3 ring_vertex
  linear_combination (z * r ^ 2) * key

theorem sinD_pos : 0 < sinD := by
  unfold sinD
  apply Real.sin_pos_of_pos_of_lt_pi
  · positivity
  · nlinarith [Real.pi_pos]

/-! ## Helper lemmas: summing the determinants over all 32 sections -/

theorem sum_map_pair_flatMap {α : Type} (g : α → ℝ) (h1 h2 : ℕ → α) :
    ∀ l : List ℕ, ((l.flatMap (fun j => [h1 j, h2 j])).map g).sum =
      (l.map (fun j => g (h1 j) + g (h2 j))).sum
  | [] => rfl
  | j :: rest => by
    simp only [List.flatMap_cons, List.map_append, List.sum_append,
      List.map_cons, List.sum_cons, List.map_nil, List.sum_nil]
    rw [sum_map_pair_flatMap g h1 h2 rest]
    ring

theorem sum_range32_congr (F : ℕ → ℝ) (K : ℝ) (h : ∀ j, j < 32 → F j = K) :
    ((List.range 32).map F).sum = 32 * K := by
  rw [List.map_congr_left (fun j hj => h j (List.mem_range.mp hj)),
    List.map_const', List.sum_replicate, List.length_range, nsmul_eq_mul]
  norm_num

theorem side_block_sum (p : List (ℝ × ℝ)) (i : ℕ) (hi : i + 1 < p.length) :
    (((List.range 32).flatMap (fun j =>
        [(i * 32 + j, i * 32 + (j + 1) % 32, (i + 1) * 32 + j),
         ((i + 1) * 32 + j, i * 32 + (j + 1) % 32,
           (i + 1) * 32 + (j + 1) % 32)])).map
      (fun f => det3 ((pin_vertices p).getD f.1 (0, 0, 0))
        ((pin_vertices p).getD f.2.1 (0, 0, 0))
        ((pin_vertices p).getD f.2.2 (0, 0, 0)))).sum =
    32 * (sinD * (((p.getD i (0, 0)).2 + (p.getD (i + 1) (0, 0)).2) *
      ((p.getD i (0, 0)).2 * (p.getD (i + 1) (0, 0)).1 -
        (p.getD (i + 1) (0, 0)).2 * (p.getD i (0, 0)).1))) := by
  rw [sum_map_pair_flatMap]
  refine sum_range32_congr _ _ (fun j hj => ?_)
  have hjn : (j + 1) % 32 < 32 := Nat.mod_lt _ (by norm_num)
  show det3 ((pin_vertices p).getD (i * 32 + j) (0, 0, 0))
      ((pin_vertices p).getD (i * 32 + (j + 1) % 32) (0, 0, 0))
      ((pin_vertices p).getD ((i + 1) * 32 + j) (0, 0, 0)) +
    det3 ((pin_vertices p).getD ((i + 1) * 32 + j) (0, 0, 0))
      ((pin_vertices p).getD (i * 32 + (j + 1) % 32) (0, 0, 0))
      ((pin_vertices p).getD ((i + 1) * 32 + (j + 1) % 32) (0, 0, 0)) = _
  rw [pin_vertices_getD_ring p i j (by omega) hj,
    pin_vertices_getD_ring p i ((j + 1) % 32) (by omega) hjn,
    pin_vertices_getD_ring p (i + 1) j hi hj,
    pin_vertices_getD_ring p (i + 1) ((j + 1) % 32) hi hjn]
  exact quad_det _ _ _ _ j hj

theorem bottom_fan_sum (p : List (ℝ × ℝ)) (n : ℕ) (hn : p.length = n)
    (hpos : 0 < n) :
    ((bottom_faces n).map
      (fun f => det3 ((pin_vertices p).getD f.1 (0, 0, 0))
        ((pin_vertices p).getD f.2.1 (0, 0, 0))
        ((pin_vertices p).getD f.2.2 (0, 0, 0)))).sum =
    32 * (sinD * (-((p.getD 0 (0, 0)).1 * (p.getD 0 (0, 0)).2 ^ 2))) := by
  subst hn
  unfold bottom_faces
  rw [List.map_map]
  refine sum_range32_congr _ _ (fun j hj => ?_)
  have hjn : (j + 1) % 32 < 32 := Nat.mod_lt _ (by norm_num)
  show det3 ((pin_vertices p).getD (p.length * 32) (0, 0, 0))
      ((pin_vertices p).getD ((j + 1) % 32) (0, 0, 0))
      ((pin_vertices p).getD j (0, 0, 0)) = _
  have hr0 : (pin_vertices p).getD j (0, 0, 0) =
      ring_vertex (p.getD 0 (0, 0)).2 (p.getD 0 (0, 0)).1 j := by
    have h := pin_vertices_getD_ring p 0 j hpos hj (0, 0, 0)
    rwa [zero_mul, zero_add] at h
  have hrn : (pin_vertices p).getD ((j + 1) % 32) (0, 0, 0) =
      ring_vertex (p.getD 0 (0, 0)).2 (p.getD 0 (0, 0)).1 ((j + 1) % 32) := by
    have h := pin_vertices_getD_ring p 0 ((j + 1) % 32) hpos hjn (0, 0, 0)
    rwa [zero_mul, zero_add] at h
  rw [pin_vertices_getD_bottom, hr0, hrn]
  exact bottom_det _ _ j hj

theorem top_fan_sum (p : List (ℝ × ℝ)) (n : ℕ) (hn : p.length = n)
    (hpos : 0 < n) :
    ((top_faces n).map
      (fun f => det3 ((pin_vertices p).getD f.1 (0, 0, 0))
        ((pin_vertices p).getD f.2.1 (0, 0, 0))
        ((pin_vertices p).getD f.2.2 (0, 0, 0)))).sum =
    32 * (sinD * ((p.getD (p.length - 1) (0, 0)).1 *
      (p.getD (p.length - 1) (0, 0)).2 ^ 2)) := by
  subst hn
  unfold top_faces
  rw [List.map_map]
  refine sum_range32_congr _ _ (fun j hj => ?_)
  have hjn : (j + 1) % 32 < 32 := Nat.mod_lt _ (by norm_num)
  have hlast : p.length - 1 < p.length := by omega
  show det3 ((pin_vertices p).getD (p.length * 32 + 1) (0, 0, 0))
      ((pin_vertices p).getD ((p.length - 1) * 32 + j) (0, 0, 0))
      ((pin_vertices p).getD ((p.length - 1) * 32 + (j + 1) % 32) (0, 0, 0)) = _
  rw [pin_vertices_getD_top,
    pin_vertices_getD_ring p (p.length - 1) j hlast hj,
    pin_vertices_getD_ring p (p.length - 1) ((j + 1) % 32) hlast hjn]
  exact top_det _ _ j hj

/-! ## Helper lemmas: closed-form signed volume per profile length -/

theorem signed_vol6_profile2 (z0 r0 z1 r1 : ℝ) :
    signed_vol6 (pin_vertices [(z0, r0), (z1, r1)]) (pin_faces 2) =
      32 * sinD * ((r0 + r1) * (r0 * z1 - r1 * z0) + z1 * r1 ^ 2 - z0 * r0 ^ 2) := by
  have hside := side_block_sum [(z0, r0), (z1, r1)] 0 (by norm_num)
  have hbot := bottom_fan_sum [(z0, r0), (z1, r1)] 2 rfl (by norm_num)
  have htop := top_fan_sum [(z0, r0), (z1, r1)] 2 rfl (by norm_num)
  have hexp : side_faces 2 = (List.range 32).flatMap (fun j =>
      [(0 * 32 + j, 0 * 32 + (j + 1) % 32, (0 + 1) * 32 + j),
       ((0 + 1) * 32 + j, 0 * 32 + (j + 1) % 32,
         (0 + 1) * 32 + (j + 1) % 32)]) := by rfl
  unfold signed_vol6 pin_faces
  rw [List.map_append, List.sum_append, List.map_append, List.sum_append]
  rw [hexp, hside, hbot, htop]
  norm_num [List.getD_cons_zero, List.getD_cons_succ]
  ring

theorem signed_vol6_profile3 (z0 r0 z1 r1 z2 r2 : ℝ) :
    signed_vol6 (pin_vertices [(z0, r0), (z1, r1), (z2, r2)]) (pin_faces 3) =
      32 * sinD * ((r0 + r1) * (r0 * z1 - r1 * z0) +
        (r1 + r2) * (r1 * z2 - r2 * z1) + z2 * r2 ^ 2 - z0 * r0 ^ 2) := by
  have hside0 := side_block_sum [(z0, r0), (z1, r1), (z2, r2)] 0 (by norm_num)
  have hside1 := side_block_sum [(z0, r0), (z1, r1), (z2, r2)] 1 (by norm_num)
  have hbot := bottom_fan_sum [(z0, r0), (z1, r1), (z2, r2)] 3 rfl (by norm_num)
  have htop := top_fan_sum [(z0, r0), (z1, r1), (z2, r2)] 3 rfl (by norm_num)
  have hexp : side_faces 3 = ((List.range 32).flatMap (fun j =>
      [(0 * 32 + j, 0 * 32 + (j + 1) % 32, (0 + 1) * 32 + j),
       ((0 + 1) * 32 + j, 0 * 32 + (j + 1) % 32,
         (0 + 1) * 32 + (j + 1) % 32)])) ++ ((List.range 32).flatMap (fun j =>
      [(1 * 32 + j, 1 * 32 + (j + 1) % 32, (1 + 1) * 32 + j),
       ((1 + 1) * 32 + j, 1 * 32 + (j + 1) % 32,
         (1 + 1) * 32 + (j + 1) % 32)])) := by rfl
  unfold signed_vol6 pin_faces
  rw [List.map_append, List.sum_append, List.map_append, List.sum_append]
  rw [hexp, List.map_append, List.sum_append, hside0, hside1, hbot, htop]
  norm_num [List.getD_cons_zero, List.getD_cons_succ]
  ring

theorem signed_vol6_profile4 (z0 r0 z1 r1 z2 r2 z3 r3 : ℝ) :
    signed_vol6 (pin_vertices [(z0, r0), (z1, r1), (z2, r2), (z3, r3)])
        (pin_faces 4) =
      32 * sinD * ((r0 + r1) * (r0 * z1 - r1 * z0) +
        (r1 + r2) * (r1 * z2 - r2 * z1) + (r2 + r3) * (r2 * z3 - r3 * z2) +
        z3 * r3 ^ 2 - z0 * r0 ^ 2) := by
  have hside0 :=
    side_block_sum [(z0, r0), (z1, r1), (z2, r2), (z3, r3)] 0 (by norm_num)
  have hside1 :=
    side_block_sum [(z0, r0), (z1, r1), (z2, r2), (z3, r3)] 1 (by norm_num)
  have hside2 :=
    side_block_sum [(z0, r0), (z1, r1), (z2, r2), (z3, r3)] 2 (by norm_num)
  have hbot :=
    bottom_fan_sum [(z0, r0), (z1, r1), (z2, r2), (z3, r3)] 4 rfl (by norm_num)
  have htop :=
    top_fan_sum [(z0, r0), (z1, r1), (z2, r2), (z3, r3)] 4 rfl (by norm_num)
  have hexp : side_faces 4 = (((List.range 32).flatMap (fun j =>
      [(0 * 32 + j, 0 * 32 + (j + 1) % 32, (0 + 1) * 32 + j),
       ((0 + 1) * 32 + j, 0 * 32 + (j + 1) % 32,
         (0 + 1) * 32 + (j + 1) % 32)])) ++ ((List.range 32).flatMap (fun j =>
      [(1 * 32 + j, 1 * 32 + (j + 1) % 32, (1 + 1) * 32 + j),
       ((1 + 1) * 32 + j, 1 * 32 + (j + 1) % 32,
         (1 + 1) * 32 + (j + 1) % 32)]))) ++ ((List.range 32).flatMap (fun j =>
      [(2 * 32 + j, 2 * 32 + (j + 1) % 32, (2 + 1) * 32 + j),
       ((2 + 1) * 32 + j, 2 * 32 + (j + 1) % 32,
         (2 + 1) * 32 + (j + 1) % 32)])) := by rfl
  unfold signed_vol6 pin_faces
  rw [List.map_append, List.sum_append, List.map_append, List.sum_append]
  rw [hexp, List.map_append, List.sum_append, List.map_append, List.sum_append,
    hside0, hside1, hside2, hbot, htop]
  norm_num [List.getD_cons_zero, List.getD_cons_succ]
  ring

/-! ## Helper lemmas: combinatorial watertightness of the three face layouts -/

theorem pin_faces_watertight_two : oriented_watertight (pin_faces 2) :=
  oriented_watertight_of_checks _ (by decide) (by decide)

theorem pin_faces_watertight_three : oriented_watertight (pin_faces 3) :=
  oriented_watertight_of_checks _ (by decide) (by decide)

theorem pin_faces_watertight_four : oriented_watertight (pin_faces 4) :=
  oriented_watertight_of_checks _ (by decide) (by decide)

/-- C2: The pin-placement planner returns a pin count that is exactly 1, 2 or 3;
with aspect ratio `r = L / max(W, 0.1)` the count is 3 when `r > 10`, 2 when
`3 < r ≤ 10`, 1 when `r ≤ 3`; and the count is monotone non-decreasing in `r`. -/
theorem num_pins_spec :
    (∀ l w : ℚ, aspect_ratio l w = l / max w (1 / 10)) ∧
    (∀ r : ℚ,
      (num_pins r = 1 ∨ num_pins r = 2 ∨ num_pins r = 3) ∧
      (10 < r → num_pins r = 3) ∧
      (3 < r → r ≤ 10 → num_pins r = 2) ∧
      (r ≤ 3 → num_pins r = 1)) ∧
    (∀ r s : ℚ, r ≤ s → num_pins r ≤ num_pins s) := by
  refine ⟨fun l w => ?_, fun r => ⟨?_, fun h => ?_, fun h1 h2 => ?_, fun h => ?_⟩,
    fun r s hrs => ?_⟩
  · unfold aspect_ratio clamp_width
    rcases lt_or_le w (1 / 10) with h | h
    · rw [if_pos h, max_eq_right h.le]
    · rw [if_neg (not_lt.mpr h), max_eq_left h]
  · unfold num_pins; split_ifs <;> simp
  · unfold num_pins; rw [if_pos (by linarith)]
  · unfold num_pins; rw [if_neg (by linarith), if_pos (by linarith)]
  · unfold num_pins; rw [if_neg (by linarith), if_neg (by linarith)]
  · unfold num_pins
    split_ifs <;> first | omega | linarith

/-- Witness for C2 at concrete aspect ratios. -/
theorem num_pins_spec_witness :
    num_pins 5 = 2 ∧ num_pins 2 ≤ num_pins 12 :=
  ⟨(num_pins_spec.2.1 5).2.2.1 (by norm_num) (by norm_num),
    num_pins_spec.2.2 2 12 (by norm_num)⟩

/-- C3: whenever keys are placed, `pin_radius = clamp(0.6 · safe_radius, 2, 20)`
so `pin_radius ∈ [2, 20]`; `pin_height = clamp(3 · pin_radius, 10, 30)` so
`pin_height ∈ [10, 30]`; `hole_radius - pin_radius = 0.2` exactly (half the
0.4 mm diametral tolerance); and `hole_height = pin_height`. -/
theorem smart_sizing_spec (mr : ℚ) :
    pin_radius mr = max 2 (min ((6 / 10) * mr) 20) ∧
    2 ≤ pin_radius mr ∧ pin_radius mr ≤ 20 ∧
    pin_height mr = max 10 (min (3 * pin_radius mr) 30) ∧
    10 ≤ pin_height mr ∧ pin_height mr ≤ 30 ∧
    hole_radius mr - pin_radius mr = 2 / 10 ∧
    hole_height mr = pin_height mr := by
  refine ⟨by rw [pin_radius, mul_comm], le_max_left _ _,
    max_le (by norm_num) (min_le_right _ _),
    by rw [pin_height, mul_comm], le_max_left _ _,
    max_le (by norm_num) (min_le_right _ _), ?_, rfl⟩
  unfold hole_radius tolerance
  ring

/-- C9: the aspect-ratio computation never divides by zero: the
minimum-rectangle width is clamped to at least 0.1 before the division, so the
divisor is nonzero and the ratio is a well-defined rational. -/
theorem clamp_width_spec (w l : ℚ) :
    1 / 10 ≤ clamp_width w ∧ clamp_width w ≠ 0 ∧
    aspect_ratio l w = l / clamp_width w := by
  refine ⟨?_, ?_, rfl⟩
  · unfold clamp_width; split_ifs with h <;> linarith
  · unfold clamp_width; split_ifs with h <;> [norm_num; linarith]

/-- C7: `suggest_split` with no axis hint selects the argmax of the extents
(which maximizes the extent over all three axes), and for any selected axis
`i` it returns normal `e i` (the positive unit basis vector) and origin equal
to the centroid with coordinate `i` replaced by the bounds midpoint. -/
theorem suggest_split_spec :
    (∀ m : MeshSummary,
      suggest_split m none = suggest_split m (some (argmax3 (extents m))) ∧
      extents m 0 ≤ extents m (argmax3 (extents m)) ∧
      extents m 1 ≤ extents m (argmax3 (extents m)) ∧
      extents m 2 ≤ extents m (argmax3 (extents m))) ∧
    (∀ (m : MeshSummary) (i : Fin 3),
      (suggest_split m (some i)).2 i = 1 ∧
      (∀ j, j ≠ i → (suggest_split m (some i)).2 j = 0) ∧
      (suggest_split m (some i)).1 i = (m.lo i + m.hi i) / 2 ∧
      (∀ j, j ≠ i → (suggest_split m (some i)).1 j = m.centroid j)) := by
  constructor
  · intro m
    refine ⟨rfl, ?_, ?_, ?_⟩ <;>
    · unfold argmax3
      split_ifs <;> linarith
  · intro m i
    refine ⟨?_, fun j hj => ?_, ?_, fun j hj => ?_⟩
    · show Function.update (mkV3 0 0 0) i 1 i = 1
      rw [Function.update_same]
    · show Function.update (mkV3 0 0 0) i 1 j = 0
      rw [Function.update_noteq hj]
      fin_cases j <;> rfl
    · show Function.update m.centroid i ((m.lo i + m.hi i) / 2) i = _
      rw [Function.update_same]
    · show Function.update m.centroid i ((m.lo i + m.hi i) / 2) j = m.centroid j
      rw [Function.update_noteq hj]

/-- Witness for C7 at a concrete mesh summary and axis. -/
theorem suggest_split_spec_witness :
    (suggest_split ⟨mkV3 0 0 0, mkV3 4 2 2, mkV3 1 1 1⟩ (some 0)).2 1 = 0 ∧
    (suggest_split ⟨mkV3 0 0 0, mkV3 4 2 2, mkV3 1 1 1⟩ (some 0)).1 2 = 1 :=
  ⟨(suggest_split_spec.2 ⟨mkV3 0 0 0, mkV3 4 2 2, mkV3 1 1 1⟩ 0).2.1 1 (by decide),
    (suggest_split_spec.2 ⟨mkV3 0 0 0, mkV3 4 2 2, mkV3 1 1 1⟩ 0).2.2.2 2 (by decide)⟩

/-- C1 counterexample: the core does not normalize the supplied normal before
the cap-surface analysis.  With the plane through the origin, a triangle whose
vertices sit at unnormalized distance `7e-5` is classified as a cap face under
normal `(1,0,0)` (since `7e-5 < 1e-4`) but not under `(2,0,0)` (since
`1.4e-4 ≥ 1e-4`), so the two runs do not yield the same cap analysis. -/
theorem normal_not_normalized_counterexample :
    mkV3 2 0 0 = vsmul 2 (mkV3 1 0 0) ∧
    cap_face_mask
        [mkV3 (7 / 100000) 0 0, mkV3 (7 / 100000) 1 0, mkV3 (7 / 100000) 0 1]
        [(0, 1, 2)] (mkV3 0 0 0) (mkV3 1 0 0) = [true] ∧
    cap_face_mask
        [mkV3 (7 / 100000) 0 0, mkV3 (7 / 100000) 1 0, mkV3 (7 / 100000) 0 1]
        [(0, 1, 2)] (mkV3 0 0 0) (mkV3 2 0 0) = [false] := by
  refine ⟨?_, ?_, ?_⟩
  · funext i
    simp only [mkV3, vsmul]
    split_ifs <;> norm_num
  · simp [cap_face_mask, on_plane, signed_distance, dot3, vsub, mkV3]
    norm_num [abs_lt]
  · simp [cap_face_mask, on_plane, signed_distance, dot3, vsub, mkV3]
    norm_num [le_abs]

/-- C1 (amended): scaling the normal by a positive factor leaves the slicer's
half-space side test unchanged (so the sliced halves agree), but the cap
analysis applies the `1e-4` on-plane threshold to the unnormalized dot
product, so under normal `k·n` the effective tolerance becomes `1e-4 / k`
rather than staying `1e-4`. -/
theorem normal_scaling_spec (o n p : V3) (k : ℚ) (hk : 0 < k) :
    slice_side o (vsmul k n) p = slice_side o n p ∧
    (on_plane o (vsmul k n) p = true ↔
      |signed_distance o n p| < 1 / (10000 * k)) := by
  have hdist : signed_distance o (vsmul k n) p = k * signed_distance o n p := by
    unfold signed_distance dot3 vsub vsmul; ring
  constructor
  · unfold slice_side
    rw [hdist]
    rw [decide_eq_decide]
    constructor
    · intro hkd
      by_contra hd
      push_neg at hd
      have := mul_neg_of_pos_of_neg hk hd
      linarith
    · exact fun h => mul_nonneg hk.le h
  · unfold on_plane
    rw [hdist, abs_mul, abs_of_pos hk]
    simp only [decide_eq_true_eq]
    have hk10 : (0 : ℚ) < 10000 * k := by positivity
    rw [lt_div_iff hk10]
    constructor <;> intro h <;> nlinarith [abs_nonneg (signed_distance o n p)]

/-- Witness for the amended C1 at concrete vectors and factor 2. -/
theorem normal_scaling_spec_witness :
    slice_side (mkV3 0 0 0) (vsmul 2 (mkV3 1 0 0)) (mkV3 3 1 1) =
      slice_side (mkV3 0 0 0) (mkV3 1 0 0) (mkV3 3 1 1) :=
  (normal_scaling_spec (mkV3 0 0 0) (mkV3 1 0 0) (mkV3 3 1 1) 2 (by norm_num)).1

/-- C5: for `c > 0` the chamfer is rescaled to `h/3` exactly when
`(taper_top + flare_bottom) · c ≥ h` (Python booleans as 0/1), and the profile
bottom-to-top is `(0, r+c')`, `(c', r)` when flaring else `(0, r)`, followed
by `(h−c', r)`, `(h, r−c')` when tapering else `(h, r)`. -/
theorem pin_profile_spec (r h c : ℚ) (t f : Bool) (hc : 0 < c) :
    pin_profile r h c t f =
      (let c' : ℚ :=
        if h ≤ ((if t then 1 else 0) + (if f then 1 else 0) : ℚ) * c then h / 3
        else c
       (if f then [(0, r + c'), (c', r)] else [(0, r)]) ++
       (if t then [(h - c', r), (h, r - c')] else [(h, r)])) := by
  have e2 : ((1 : ℚ) + 1) * c = c + c := by ring
  have e10 : ((1 : ℚ) + 0) * c = c + 0 := by ring
  have e01 : ((0 : ℚ) + 1) * c = 0 + c := by ring
  have e00 : ((0 : ℚ) + 0) * c = 0 + 0 := by ring
  cases t <;> cases f <;>
    simp only [pin_profile, if_true, if_false, Bool.false_eq_true, ge_iff_le,
      ite_true, ite_false, e2, e10, e01, e00]

/-- Witness for C5 at `r = 2, h = 10, c = 1` with both chamfer flags set. -/
theorem pin_profile_spec_witness :
    pin_profile (2 : ℚ) 10 1 true true = [(0, 3), (1, 2), (9, 2), (10, 1)] := by
  rw [pin_profile_spec 2 10 1 true true (by norm_num)]
  norm_num

/-- C4: provided the pole of inaccessibility lies inside the polygon (a
shapely guarantee for valid polygons), every returned 2D pin center is inside
the polygon — in the strict sense the code tests, hence boundary-inclusively;
in multi-pin mode the kept centers are exactly the proposed centerline points
that are inside, and when all proposals are discarded exactly the single
pole-of-inaccessibility fallback is returned. -/
theorem select_centers_spec (P : Poly2D) (R : RectCoords) (n : ℕ)
    (hpole : P.contains P.pole = true) :
    (∀ c ∈ select_centers P R n, P.contains c = true) ∧
    (n ≠ 1 →
      ((proposed_points R n).filter (fun pt => P.contains pt) ≠ [] →
        select_centers P R n =
          (proposed_points R n).filter (fun pt => P.contains pt)) ∧
      ((proposed_points R n).filter (fun pt => P.contains pt) = [] →
        select_centers P R n = [P.pole])) := by
  constructor
  · intro c hc
    unfold select_centers at hc
    by_cases hn : n = 1
    · rw [if_pos hn] at hc
      by_cases hcent : P.contains P.poly_centroid = true
      · rw [if_pos hcent] at hc
        have : ¬([P.poly_centroid] = ([] : List P2)) := by simp
        rw [if_neg this] at hc
        rw [List.mem_singleton.mp hc]
        exact hcent
      · rw [if_neg hcent] at hc
        have : ¬([P.pole] = ([] : List P2)) := by simp
        rw [if_neg this] at hc
        rw [List.mem_singleton.mp hc]
        exact hpole
    · rw [if_neg hn] at hc
      by_cases hemp : (proposed_points R n).filter (fun pt => P.contains pt) = []
      · rw [if_pos hemp] at hc
        rw [List.mem_singleton.mp hc]
        exact hpole
      · rw [if_neg hemp] at hc
        exact List.of_mem_filter hc
  · intro hn
    constructor
    · intro hne
      unfold select_centers
      rw [if_neg hn, if_neg hne]
    · intro hemp
      unfold select_centers
      rw [if_neg hn, hemp, if_pos rfl]

/-- Witness for C4: a selected center of the example polygon is inside it. -/
theorem select_centers_spec_witness : examplePoly.contains (1, 1) = true :=
  (select_centers_spec examplePoly exampleRect 1 (by decide)).1 (1, 1) (by decide)

/-- C10: within one `perform_split_and_key` call, every pin shares the one
radius, height and chamfer computed before the loop, every hole cutter shares
its one radius, height and chamfer, every solid is oriented by the single
rotation target `-normal` fixed before the loop, and the safe radius the
dimensions derive from is the boundary distance of the *first* chosen center
only — two center lists with the same head yield the same safe radius. -/
theorem key_solids_uniform_spec (normal : V3) (centers : List V3) (mr : ℚ) :
    (∀ s ∈ make_pins normal centers mr,
      s.radius = pin_radius mr ∧ s.height = pin_height mr ∧
      s.chamfer = pin_chamfer mr ∧ s.taper_top = true ∧
      s.flare_bottom = true ∧ s.rot_target = vneg normal) ∧
    (∀ s ∈ make_hole_cutters normal centers mr,
      s.radius = hole_radius mr ∧ s.height = hole_height mr ∧
      s.chamfer = hole_chamfer mr ∧ s.taper_top = false ∧
      s.flare_bottom = true ∧ s.rot_target = vneg normal) ∧
    (∀ (P : Poly2D) (cs cs' : List P2),
      analyze_max_radius P cs = P.boundary_dist (cs.headD (0, 0)) ∧
      (cs.headD (0, 0) = cs'.headD (0, 0) →
        analyze_max_radius P cs = analyze_max_radius P cs')) := by
  refine ⟨fun s hs => ?_, fun s hs => ?_, fun P cs cs' => ⟨rfl, fun hh => ?_⟩⟩
  · obtain ⟨c, -, rfl⟩ := List.mem_map.mp hs
    exact ⟨rfl, rfl, rfl, rfl, rfl, rfl⟩
  · obtain ⟨c, -, rfl⟩ := List.mem_map.mp hs
    exact ⟨rfl, rfl, rfl, rfl, rfl, rfl⟩
  · unfold analyze_max_radius
    rw [hh]

/-- Witness for C10 at a one-pin configuration. -/
theorem key_solids_uniform_spec_witness :
    ((make_pins (mkV3 1 0 0) [mkV3 0 0 0] 5).headD
      ⟨0, 0, 0, false, false, mkV3 0 0 0, mkV3 0 0 0⟩).radius = pin_radius 5 :=
  ((key_solids_uniform_spec (mkV3 1 0 0) [mkV3 0 0 0] 5).1
    ((make_pins (mkV3 1 0 0) [mkV3 0 0 0] 5).headD
      ⟨0, 0, 0, false, false, mkV3 0 0 0, mkV3 0 0 0⟩)
    (by simp [make_pins])).1

/-- C8: the cap analysis is total — every internal exception is converted to
`None` by the surrounding handler, not only the explicit no-cap returns — and
keying is atomic on failure: whenever the analysis yields `None`,
`perform_split_and_key` returns the two sliced halves exactly as the slicer
produced them, with no pins unioned and no holes subtracted. -/
theorem analyze_total_and_keying_atomic :
    (∀ (CapD Err : Type) (e : Err),
      analyze_cap_surface (Except.error e : Except Err (Option CapD)) = none) ∧
    (∀ (Mesh CapD Err : Type) (prims : SplitPrims Mesh CapD Err)
      (add_keys : CapD → Mesh → Mesh → Mesh × Mesh) (mesh : Mesh)
      (origin normal : V3),
      analyze_cap_surface
          (prims.analyze_body (prims.slice_cap mesh origin normal) origin normal) =
        none →
      perform_split_and_key prims add_keys mesh origin normal =
        (prims.slice_cap mesh origin normal,
         prims.slice_cap mesh origin (vneg normal))) := by
  constructor
  · intro CapD Err e
    rfl
  · intro Mesh CapD Err prims add_keys mesh origin normal hnone
    simp only [perform_split_and_key, hnone]

/-- C6 counterexample: the claim quantifies over all parameters, but for the
degenerate radius 0 the revolved mesh collapses onto the Z axis: every
triangle is degenerate and the signed volume is 0, not positive, so the
winding is not outward-facing there (and the collapsed surface is not
geometrically watertight). -/
theorem create_chamfered_pin_degenerate_counterexample :
    ¬ (0 < signed_vol6 (create_chamfered_pin 0 3 1 false false).1
        (create_chamfered_pin 0 3 1 false false).2) := by
  have hprof : pin_profile (0 : ℝ) 3 1 false false = [(0, 0), (3, 0)] := by
    simp [pin_profile]
  show ¬ (0 < signed_vol6 (pin_vertices (pin_profile (0 : ℝ) 3 1 false false))
      (pin_faces (pin_profile (0 : ℝ) 3 1 false false).length))
  rw [hprof]
  have hlen : ([((0 : ℝ), (0 : ℝ)), (3, 0)] : List (ℝ × ℝ)).length = 2 := rfl
  rw [hlen, signed_vol6_profile2]
  norm_num

/-- C6 (amended): for parameters `0 < c < r` and `0 < h` — which the
orchestrator's dimensioning always produces — the mesh built by
`_create_chamfered_pin` has exactly `32·num_rings + 2` vertices, where
`num_rings` is 2 plus one per enabled chamfer flag; vertex `i·32 + j` is
angular section `j` of the revolved profile point `i` (32 sections per ring,
plus the bottom and top center vertices); the face list is combinatorially
watertight with consistent orientation; and six times the signed volume is
positive, i.e. the consistent winding faces outward. -/
theorem create_chamfered_pin_spec (r h c : ℝ) (t f : Bool)
    (hc : 0 < c) (hcr : c < r) (hh : 0 < h) :
    ((create_chamfered_pin r h c t f).1).length =
        32 * (pin_profile r h c t f).length + 2 ∧
    (pin_profile r h c t f).length =
        2 + (if t then 1 else 0) + (if f then 1 else 0) ∧
    (∀ i j, i < (pin_profile r h c t f).length → j < 32 →
      (create_chamfered_pin r h c t f).1.getD (i * 32 + j) (0, 0, 0) =
        ring_vertex ((pin_profile r h c t f).getD i (0, 0)).2
          ((pin_profile r h c t f).getD i (0, 0)).1 j) ∧
    oriented_watertight (create_chamfered_pin r h c t f).2 ∧
    0 < signed_vol6 (create_chamfered_pin r h c t f).1
        (create_chamfered_pin r h c t f).2 := by
  have hr : 0 < r := hc.trans hcr
  refine ⟨pin_vertices_length _, ?_, fun i j hi hj =>
    pin_vertices_getD_ring _ i j hi hj _, ?_, ?_⟩
  · cases t <;> cases f <;> simp [pin_profile]
  · show oriented_watertight (pin_faces (pin_profile r h c t f).length)
    cases t <;> cases f
    · have hlen : (pin_profile r h c false false).length = 2 := by
        simp [pin_profile]
      rw [hlen]; exact pin_faces_watertight_two
    · have hlen : (pin_profile r h c false true).length = 3 := by
        simp [pin_profile]
      rw [hlen]; exact pin_faces_watertight_three
    · have hlen : (pin_profile r h c true false).length = 3 := by
        simp [pin_profile]
      rw [hlen]; exact pin_faces_watertight_three
    · have hlen : (pin_profile r h c true true).length = 4 := by
        simp [pin_profile]
      rw [hlen]; exact pin_faces_watertight_four
  · show 0 < signed_vol6 (pin_vertices (pin_profile r h c t f))
      (pin_faces (pin_profile r h c t f).length)
    have hr2 : 0 < r ^ 2 := pow_pos hr 2
    cases t <;> cases f
    · -- no chamfers: straight cylinder
      have hprof : pin_profile r h c false false = [(0, r), (h, r)] := by
        simp [pin_profile]
      rw [hprof]
      have hlen : ([((0 : ℝ), r), (h, r)] : List (ℝ × ℝ)).length = 2 := rfl
      rw [hlen, signed_vol6_profile2]
      refine mul_pos (mul_pos (by norm_num) sinD_pos) ?_
      nlinarith [mul_pos (mul_pos hr hr) hh]
    · -- flare only
      by_cases hcc : h ≤ c
      · have hprof : pin_profile r h c false true =
            [(0, r + h / 3), (h / 3, r), (h, r)] := by
          simp [pin_profile, hcc]
        rw [hprof]
        have hlen : ([((0 : ℝ), r + h / 3), (h / 3, r), (h, r)] :
            List (ℝ × ℝ)).length = 3 := rfl
        rw [hlen, signed_vol6_profile3]
        refine mul_pos (mul_pos (by norm_num) sinD_pos) ?_
        have ha : 0 < h / 3 := by linarith
        have har : h / 3 < r := by linarith
        have t1 : 0 < (2 * r + h / 3) * ((r + h / 3) * (h / 3)) :=
          mul_pos (by linarith) (mul_pos (by linarith) ha)
        have t2 : 0 < 2 * r ^ 2 * (h - h / 3) :=
          mul_pos (by linarith) (by linarith)
        have t3 : 0 < h * r ^ 2 := mul_pos hh hr2
        nlinarith [t1, t2, t3]
      · have hprof : pin_profile r h c false true =
            [(0, r + c), (c, r), (h, r)] := by
          simp [pin_profile, hcc]
        rw [hprof]
        have hlen : ([((0 : ℝ), r + c), (c, r), (h, r)] :
            List (ℝ × ℝ)).length = 3 := rfl
        rw [hlen, signed_vol6_profile3]
        refine mul_pos (mul_pos (by norm_num) sinD_pos) ?_
        have hch : c < h := not_le.mp hcc
        have t1 : 0 < (2 * r + c) * ((r + c) * c) :=
          mul_pos (by linarith) (mul_pos (by linarith) hc)
        have t2 : 0 < 2 * r ^ 2 * (h - c) :=
          mul_pos (by linarith) (by linarith)
        have t3 : 0 < h * r ^ 2 := mul_pos hh hr2
        nlinarith [t1, t2, t3]
    · -- taper only
      by_cases hcc : h ≤ c
      · have hprof : pin_profile r h c true false =
            [(0, r), (h - h / 3, r), (h, r - h / 3)] := by
          simp [pin_profile, hcc]
        rw [hprof]
        have hlen : ([((0 : ℝ), r), (h - h / 3, r), (h, r - h / 3)] :
            List (ℝ × ℝ)).length = 3 := rfl
        rw [hlen, signed_vol6_profile3]
        refine mul_pos (mul_pos (by norm_num) sinD_pos) ?_
        have ha : 0 < h / 3 := by linarith
        have har : h / 3 < r := by linarith
        have t1 : 0 < 2 * r ^ 2 * (h - h / 3) :=
          mul_pos (by linarith) (by linarith)
        have t2 : 0 < (2 * r - h / 3) * ((h / 3) * (r + h - h / 3)) :=
          mul_pos (by linarith) (mul_pos ha (by linarith))
        nlinarith [t1, t2, mul_nonneg hh.le (sq_nonneg (r - h / 3))]
      · have hprof : pin_profile r h c true false =
            [(0, r), (h - c, r), (h, r - c)] := by
          simp [pin_profile, hcc]
        rw [hprof]
        have hlen : ([((0 : ℝ), r), (h - c, r), (h, r - c)] :
            List (ℝ × ℝ)).length = 3 := rfl
        rw [hlen, signed_vol6_profile3]
        refine mul_pos (mul_pos (by norm_num) sinD_pos) ?_
        have hch : c < h := not_le.mp hcc
        have t1 : 0 < 2 * r ^ 2 * (h - c) :=
          mul_pos (by linarith) (by linarith)
        have t2 : 0 < (2 * r - c) * (c * (r + h - c)) :=
          mul_pos (by linarith) (mul_pos hc (by linarith))
        nlinarith [t1, t2, mul_nonneg hh.le (sq_nonneg (r - c))]
    · -- taper and flare
      by_cases hcc : h ≤ c + c
      · have hprof : pin_profile r h c true true =
            [(0, r + h / 3), (h / 3, r), (h - h / 3, r), (h, r - h / 3)] := by
          simp [pin_profile, hcc]
        rw [hprof]
        have hlen : ([((0 : ℝ), r + h / 3), (h / 3, r), (h - h / 3, r),
            (h, r - h / 3)] : List (ℝ × ℝ)).length = 4 := rfl
        rw [hlen, signed_vol6_profile4]
        refine mul_pos (mul_pos (by norm_num) sinD_pos) ?_
        have ha : 0 < h / 3 := by linarith
        have har : h / 3 < r := by linarith
        have t1 : 0 < (2 * r + h / 3) * ((r + h / 3) * (h / 3)) :=
          mul_pos (by linarith) (mul_pos (by linarith) ha)
        have t2 : 0 < 2 * r ^ 2 * (h - 2 * (h / 3)) :=
          mul_pos (by linarith) (by linarith)
        have t3 : 0 < (2 * r - h / 3) * ((h / 3) * (r + h - h / 3)) :=
          mul_pos (by linarith) (mul_pos ha (by linarith))
        nlinarith [t1, t2, t3, mul_nonneg hh.le (sq_nonneg (r - h / 3))]
      · have hprof : pin_profile r h c true true =
            [(0, r + c), (c, r), (h - c, r), (h, r - c)] := by
          simp [pin_profile, hcc]
        rw [hprof]
        have hlen : ([((0 : ℝ), r + c), (c, r), (h - c, r), (h, r - c)] :
            List (ℝ × ℝ)).length = 4 := rfl
        rw [hlen, signed_vol6_profile4]
        refine mul_pos (mul_pos (by norm_num) sinD_pos) ?_
        have hch : 2 * c < h := by
          have := not_le.mp hcc
          linarith
        have t1 : 0 < (2 * r + c) * ((r + c) * c) :=
          mul_pos (by linarith) (mul_pos (by linarith) hc)
        have t2 : 0 < 2 * r ^ 2 * (h - 2 * c) :=
          mul_pos (by linarith) (by linarith)
        have t3 : 0 < (2 * r - c) * (c * (r + h - c)) :=
          mul_pos (by linarith) (mul_pos hc (by linarith))
        nlinarith [t1, t2, t3, mul_nonneg hh.le (sq_nonneg (r - c))]

/-- Witness for the amended C6 at `r = 2, h = 10, c = 1/2` with both flags. -/
theorem create_chamfered_pin_spec_witness :
    0 < signed_vol6 (create_chamfered_pin 2 10 (1 / 2) true true).1
        (create_chamfered_pin 2 10 (1 / 2) true true).2 :=
  (create_chamfered_pin_spec 2 10 (1 / 2) true true (by norm_num) (by norm_num)
    (by norm_num)).2.2.2.2

/-- Witness for C8 with a concrete always-raising analysis body. -/
theorem analyze_total_and_keying_atomic_witness :
    perform_split_and_key
        (⟨fun m _ _ => m + 1, fun _ _ _ => Except.error 0⟩ :
          SplitPrims ℕ Unit ℕ)
        (fun _ a b => (a * 100, b * 100)) 7 (mkV3 0 0 0) (mkV3 1 0 0) =
      (8, 8) :=
  analyze_total_and_keying_atomic.2 ℕ Unit ℕ
    ⟨fun m _ _ => m + 1, fun _ _ _ => Except.error 0⟩
    (fun _ a b => (a * 100, b * 100)) 7 (mkV3 0 0 0) (mkV3 1 0 0) rfl

end SmartSplitter
